import Mathlib

/-!
A shallow embedding of `crates/extension/src/extension_builder.rs`
(the Zed extension build pipeline) and proofs about it.

Paths are modelled as lists of components (`FsPath`), mirroring `PathBuf`:
`join`/`extend` append components and `set_extension` rewrites the final
component.  External effects (filesystem probes, subprocess exit statuses,
environment variables) are supplied by explicit environment records, and
each function returns, besides its `Except` result, the list of
state-changing operations it performed (directory creation, subprocess
invocations, file writes); pure reads are not tracked.
-/

set_option maxHeartbeats 1000000

/-- A filesystem path as a sequence of components, as in `PathBuf`.
An absolute path starts with the empty component (so that rendering
with `/` separators yields a leading slash). -/
abbrev FsPath := List String

/-- Render a path with `/` separators (the `Display` of `Path`). -/
def pathToString (p : FsPath) : String :=
  String.intercalate "/" p

/-- `Path::is_relative` on the Unix model: relative iff no leading root. -/
def isRelativePath (p : FsPath) : Bool :=
  match p with
  | "" :: _ => false
  | _ => true

/-- `str::replace('-', "_")` on a package name, as done for the
`wasm32-wasip1`/`wasm32-wasip2` artifact name. -/
def replaceDashes (s : String) : String :=
  String.mk (s.data.map (fun c => if c = '-' then '_' else c))

/-- Drop the final `.`-separated extension of a file-name character list;
identity when no dot is present (the last-dot rule of `Path::file_stem`). -/
def dropAfterLastDot (cs : List Char) : List Char :=
  match cs.reverse.dropWhile (fun c => !(c = '.')) with
  | [] => cs
  | _ :: rest => rest.reverse

/-- `Path::file_stem` on one file-name component: the whole name when there
is no embedded dot, a leading-dot name keeps its leading dot, otherwise the
portion before the final dot. -/
def fileStemChars (cs : List Char) : List Char :=
  match cs with
  | '.' :: rest => '.' :: dropAfterLastDot rest
  | _ => dropAfterLastDot cs

/-- `Path::set_extension` applied to one component: replaces the existing
extension (text after the final dot) rather than merely appending. -/
def setExtComponent (fileName ext : String) : String :=
  String.mk (fileStemChars fileName.data) ++ "." ++ ext

/-- `PathBuf::set_extension`: rewrites the last component of the path. -/
def setExtension : FsPath → String → FsPath
  | [], _ => []
  | [x], ext => [setExtComponent x ext]
  | x :: rest, ext => x :: setExtension rest ext

/-- `const RUST_TARGET: &str = "wasm32-wasip2"`. -/
def RUST_TARGET : String := "wasm32-wasip2"

/-- Modelled from the spec: the library kind enumeration; the only native
variant is the Rust one (`ExtensionLibraryKind::Rust`). -/
inductive ExtensionLibraryKind where
  | Rust
deriving DecidableEq, Repr

/-- Modelled from the spec: the manifest's library descriptor
`{ kind : optional enum, version : optional semantic version }`.
Versions are kept abstract as strings. -/
structure LibManifestEntry where
  kind : Option ExtensionLibraryKind
  version : Option String
deriving DecidableEq, Repr

/-- Modelled from the spec: one external grammar dependency:
repository URL, revision, optional subpath inside the repository. -/
structure GrammarManifestEntry where
  repository : String
  rev : String
  path : Option String
deriving DecidableEq, Repr

/-- Modelled from the spec: the schema version is enumerated with a legacy
v0 variant; we number the variants, `0` being legacy. -/
abbrev SchemaVersion := Nat

/-- `schema_version.is_v0()`. -/
def schemaIsV0 (v : SchemaVersion) : Bool := v == 0

/-- Modelled from the spec: the extension manifest.  The grammar map
(`BTreeMap<Arc<str>, GrammarManifestEntry>`, unique keys, deterministic
order) is modelled as an association list with unique keys; the claims
under study do not depend on the key order. -/
structure ExtensionManifest where
  id : String
  schema_version : SchemaVersion
  lib : LibManifestEntry
  languages : List FsPath
  themes : List FsPath
  icon_themes : List FsPath
  grammars : List (String × GrammarManifestEntry)
  snippets : Option FsPath
deriving DecidableEq, Repr

/-- `grammars.contains_key(name)` on the association-list model. -/
def containsKey (l : List (String × GrammarManifestEntry)) (k : String) : Bool :=
  l.any (fun p => p.1 == k)

/-- `CompileExtensionOptions { release : bool }`. -/
structure CompileExtensionOptions where
  release : Bool
deriving DecidableEq, Repr

/-- The `[package] name` read out of the extension's `Cargo.toml`. -/
structure CargoTomlPackage where
  name : String
deriving DecidableEq, Repr

/-- The parsed `Cargo.toml` (only the package name is used). -/
structure CargoToml where
  package : CargoTomlPackage
deriving DecidableEq, Repr

/-- One entry of the `languages/` directory: a subdirectory name together
with whether it contains a `config.toml`. -/
structure LanguageDirEntry where
  name : String
  hasConfigToml : Bool
deriving DecidableEq, Repr

/-- One file entry of a `themes/` or `icon_themes/` directory, decomposed
as `Path::file_stem` / `Path::extension` would decompose it. -/
structure DirFileEntry where
  stem : String
  ext : Option String
deriving DecidableEq, Repr

/-- The `{ repository, commit, path }` contents of a legacy grammar TOML. -/
structure GrammarConfigToml where
  repository : String
  commit : String
  path : Option String
deriving DecidableEq, Repr

/-- One file entry of the `grammars/` directory: its stem, its extension,
and the result of parsing it as a `GrammarConfigToml` (`none` means the
TOML is malformed; unreadable files are subsumed into the same failure). -/
structure GrammarTomlFile where
  stem : String
  ext : Option String
  parsed : Option GrammarConfigToml
deriving DecidableEq, Repr

/-- The on-disk layout of the extension directory as observed by
`populate_defaults`: `none` for a directory field means the directory does
not exist.  Listing failures for existing directories are not modelled
(the claims under study concern successful normalization and the grammar
TOML parse failure, which is modelled). -/
structure DiskState where
  cargoTomlExists : Bool
  languagesDir : Option (List LanguageDirEntry)
  themesDir : Option (List DirFileEntry)
  iconThemesDir : Option (List DirFileEntry)
  snippetsJsonExists : Bool
  grammarsDir : Option (List GrammarTomlFile)
deriving DecidableEq, Repr

/-- The file name of a directory entry, put back together from stem and
extension. -/
def entryFileName (e : DirFileEntry) : String :=
  e.stem ++ (match e.ext with | some x => "." ++ x | none => "")

/-- The v0 clearing step of `populate_defaults`: legacy manifests have
their computed `languages`, `grammars` and `themes` collections discarded
(`icon_themes` is not cleared). -/
def clearComputed (m : ExtensionManifest) : ExtensionManifest :=
  { m with languages := [], grammars := [], themes := [] }

/-- Processing of one `languages/` subdirectory: if it holds a
`config.toml`, push its extension-relative path unless already present. -/
def addLanguageEntry (m : ExtensionManifest) (e : LanguageDirEntry) : ExtensionManifest :=
  if e.hasConfigToml then
    if m.languages.contains ["languages", e.name] then m
    else { m with languages := m.languages ++ [["languages", e.name]] }
  else m

/-- The `languages/` loop of `populate_defaults`. -/
def addLanguages (entries : List LanguageDirEntry) (m : ExtensionManifest) : ExtensionManifest :=
  entries.foldl addLanguageEntry m

/-- Processing of one `themes/` file: `.json` files are appended (by
relative path, deduplicated). -/
def addThemeEntry (m : ExtensionManifest) (e : DirFileEntry) : ExtensionManifest :=
  if e.ext = some "json" then
    if m.themes.contains ["themes", entryFileName e] then m
    else { m with themes := m.themes ++ [["themes", entryFileName e]] }
  else m

/-- The `themes/` loop of `populate_defaults`. -/
def addThemes (entries : List DirFileEntry) (m : ExtensionManifest) : ExtensionManifest :=
  entries.foldl addThemeEntry m

/-- Processing of one `icon_themes/` file, identical rule to themes. -/
def addIconThemeEntry (m : ExtensionManifest) (e : DirFileEntry) : ExtensionManifest :=
  if e.ext = some "json" then
    if m.icon_themes.contains ["icon_themes", entryFileName e] then m
    else { m with icon_themes := m.icon_themes ++ [["icon_themes", entryFileName e]] }
  else m

/-- The `icon_themes/` loop of `populate_defaults`. -/
def addIconThemes (entries : List DirFileEntry) (m : ExtensionManifest) : ExtensionManifest :=
  entries.foldl addIconThemeEntry m

/-- If `Cargo.toml` exists at the extension root, set the library kind to
Rust (the version is left untouched here). -/
def applyCargoDefault (disk : DiskState) (m : ExtensionManifest) : ExtensionManifest :=
  if disk.cargoTomlExists then { m with lib := { m.lib with kind := some ExtensionLibraryKind.Rust } } else m

/-- The `languages/` phase (skipped when the directory does not exist). -/
def applyLanguages (disk : DiskState) (m : ExtensionManifest) : ExtensionManifest :=
  match disk.languagesDir with
  | none => m
  | some es => addLanguages es m

/-- The `themes/` phase. -/
def applyThemes (disk : DiskState) (m : ExtensionManifest) : ExtensionManifest :=
  match disk.themesDir with
  | none => m
  | some es => addThemes es m

/-- The `icon_themes/` phase. -/
def applyIconThemes (disk : DiskState) (m : ExtensionManifest) : ExtensionManifest :=
  match disk.iconThemesDir with
  | none => m
  | some es => addIconThemes es m

/-- The `snippets.json` phase: when present, the joined path overwrites
any prior snippets value. -/
def applySnippets (extensionPath : FsPath) (disk : DiskState) (m : ExtensionManifest) : ExtensionManifest :=
  if disk.snippetsJsonExists then { m with snippets := some (extensionPath ++ ["snippets.json"]) } else m

/-- The legacy grammar-TOML loop: each `.toml` file is parsed (a malformed
file aborts normalization, keeping the mutations made so far) and inserted
under its file stem unless that key is already present. -/
def populateGrammarTomls : List GrammarTomlFile → ExtensionManifest → (Except String Unit) × ExtensionManifest
  | [], m => (Except.ok (), m)
  | e :: rest, m =>
    if e.ext = some "toml" then
      match e.parsed with
      | none => (Except.error "failed to parse grammar toml", m)
      | some cfg =>
        let m' :=
          if containsKey m.grammars e.stem then m
          else { m with grammars := m.grammars ++ [(e.stem, ⟨cfg.repository, cfg.commit, cfg.path⟩)] }
        populateGrammarTomls rest m'
    else populateGrammarTomls rest m

/-- The sequence of non-grammar phases of `populate_defaults`, in source
order: Cargo.toml probe, languages, themes, icon themes, snippets. -/
def applyDiskPhases (extensionPath : FsPath) (disk : DiskState) (m : ExtensionManifest) :
    ExtensionManifest :=
  applySnippets extensionPath disk
    (applyIconThemes disk (applyThemes disk (applyLanguages disk (applyCargoDefault disk m))))

/-- `populate_defaults`: normalize the manifest against the on-disk
layout, returning its result together with the manifest state (mutations
made before a failure persist, as with `&mut` in the source). -/
def populate_defaults (extensionPath : FsPath) (disk : DiskState) (m : ExtensionManifest) :
    (Except String Unit) × ExtensionManifest :=
  let m1 := if schemaIsV0 m.schema_version then clearComputed m else m
  let m2 := applyDiskPhases extensionPath disk m1
  if schemaIsV0 m2.schema_version then
    match disk.grammarsDir with
    | none => (Except.ok (), m2)
    | some es => populateGrammarTomls es m2
  else (Except.ok (), m2)

/-- The relative paths derived from disk for the languages collection:
one `languages/<name>` per subdirectory holding a `config.toml`. -/
def derivedLanguages (disk : DiskState) : List FsPath :=
  match disk.languagesDir with
  | none => []
  | some es => (es.filter (fun e => e.hasConfigToml)).map (fun e => ["languages", e.name])

/-- The relative paths derived from disk for the themes collection. -/
def derivedThemes (disk : DiskState) : List FsPath :=
  match disk.themesDir with
  | none => []
  | some es => (es.filter (fun e => e.ext = some "json")).map (fun e => ["themes", entryFileName e])

/-- The relative paths derived from disk for the icon-themes collection. -/
def derivedIconThemes (disk : DiskState) : List FsPath :=
  match disk.iconThemesDir with
  | none => []
  | some es => (es.filter (fun e => e.ext = some "json")).map (fun e => ["icon_themes", entryFileName e])

/-- The captured output of a subprocess: exit-status success flag and
standard-error text. -/
structure ProcOutput where
  success : Bool
  stderr : String
deriving DecidableEq, Repr

/-- A state-changing operation performed by the pipeline: directory
creation, a subprocess invocation, or a file write. -/
inductive Op where
  | createDir : FsPath → Op
  | gitInit : FsPath → Op
  | gitRemoteAdd : FsPath → String → Op
  | gitFetch : FsPath → String → Op
  | gitCheckout : FsPath → String → Op
  | runCargo : Op
  | runClang : List String → Op
  | writeFile : FsPath → Op
deriving DecidableEq, Repr

/-- The world as seen by `checkout_repo`: whether the target directory
already exists, whether `create_dir_all` succeeds, and the outcome of each
git subprocess (`none` means the process could not be spawned; the source
then propagates the io error, here rendered as a fixed message). -/
structure RepoEnv where
  directoryExists : Bool
  createDirOk : Bool
  gitInitRes : Option ProcOutput
  remoteAddRes : Option ProcOutput
  fetchRes : Option ProcOutput
  checkoutRes : Option ProcOutput
deriving DecidableEq, Repr

/-- `checkout_repo`: returns the result, the operations performed, and
whether the target directory exists afterwards. -/
def checkout_repo (env : RepoEnv) (directory : FsPath) (url : String) (rev : String) :
    (Except String Unit) × List Op × Bool :=
  if env.directoryExists then (Except.ok (), [], true)
  else
    let gitDir := directory ++ [".git"]
    if !env.createDirOk then
      (Except.error ("failed to create grammar directory " ++ pathToString directory),
        [Op.createDir directory], false)
    else
      match env.gitInitRes with
      | none =>
        (Except.error "io error running `git init`",
          [Op.createDir directory, Op.gitInit directory], true)
      | some initOut =>
        if !initOut.success then
          (Except.error ("failed to run `git init` in directory '" ++ pathToString directory ++ "'"),
            [Op.createDir directory, Op.gitInit directory], true)
        else
          match env.remoteAddRes with
          | none =>
            (Except.error "failed to execute `git remote add`",
              [Op.createDir directory, Op.gitInit directory, Op.gitRemoteAdd gitDir url], true)
          | some remoteOut =>
            if !remoteOut.success then
              (Except.error ("failed to add remote " ++ url ++ " for git repository " ++ pathToString gitDir),
                [Op.createDir directory, Op.gitInit directory, Op.gitRemoteAdd gitDir url], true)
            else
              match env.fetchRes with
              | none =>
                (Except.error "failed to execute `git fetch`",
                  [Op.createDir directory, Op.gitInit directory, Op.gitRemoteAdd gitDir url,
                    Op.gitFetch gitDir rev], true)
              | some fetchOut =>
                match env.checkoutRes with
                | none =>
                  (Except.error "failed to execute `git checkout`",
                    [Op.createDir directory, Op.gitInit directory, Op.gitRemoteAdd gitDir url,
                      Op.gitFetch gitDir rev, Op.gitCheckout gitDir rev], true)
                | some checkoutOut =>
                  let ops := [Op.createDir directory, Op.gitInit directory,
                    Op.gitRemoteAdd gitDir url, Op.gitFetch gitDir rev, Op.gitCheckout gitDir rev]
                  if !checkoutOut.success then
                    if !fetchOut.success then
                      (Except.error ("failed to fetch revision " ++ rev ++ " in directory '" ++ pathToString directory ++ "'"),
                        ops, true)
                    else
                      (Except.error ("failed to checkout revision " ++ rev ++ " in directory '" ++ pathToString directory ++ "': " ++ checkoutOut.stderr),
                        ops, true)
                  else (Except.ok (), ops, true)

/-- The world as seen by `compile_grammar`: the result of resolving
`clang` via `which`, the `WASI_LIBC_PATH` environment variable, the
`checkout_repo` world, whether `src/scanner.c` exists, and the outcome of
the clang subprocess. -/
structure GrammarEnv where
  clang : Except String String
  wasiLibcPath : Option String
  repo : RepoEnv
  scannerExists : Bool
  clangRun : Option ProcOutput
deriving Repr

/-- The clang invocation built by `compile_grammar`, in source order:
target triple, sysroot, PIC/shared/size flags, symbol export, output path,
include path, `src/parser.c` and, only when present, `src/scanner.c`. -/
def clang_args (wasiLibcPath grammarName : String)
    (grammarWasmPath srcPath parserPath scannerPath : FsPath) (scannerExists : Bool) : List String :=
  ["--target=wasm32-wasi", "--sysroot=" ++ wasiLibcPath, "-fPIC", "-shared", "-Os",
    "-Wl,--export=tree_sitter_" ++ grammarName, "-o", pathToString grammarWasmPath,
    "-I", pathToString srcPath, pathToString parserPath]
    ++ (if scannerExists then [pathToString scannerPath] else [])

/-- `compile_grammar`: resolve clang, read `WASI_LIBC_PATH` (the source
uses `.expect`, i.e. aborts with the message
"WASI_LIBC_PATH environment variable not set" when unset; the abort is
modelled as an error result), check out the grammar repository, and invoke
clang.  Returns the result and the operations performed. -/
def compile_grammar (env : GrammarEnv) (extensionDir : FsPath) (grammarName : String)
    (grammarMetadata : GrammarManifestEntry) : (Except String Unit) × List Op :=
  match env.clang with
  | Except.error e => (Except.error e, [])
  | Except.ok _clangPath =>
    match env.wasiLibcPath with
    | none => (Except.error "WASI_LIBC_PATH environment variable not set", [])
    | some wasiLibcPath =>
      let grammarRepoDir := extensionDir ++ ["grammars", grammarName]
      let grammarWasmPath := setExtension grammarRepoDir "wasm"
      match checkout_repo env.repo grammarRepoDir grammarMetadata.repository grammarMetadata.rev with
      | (Except.error e, repoOps, _) => (Except.error e, repoOps)
      | (Except.ok (), repoOps, _) =>
        let baseGrammarPath :=
          match grammarMetadata.path with
          | some p => grammarRepoDir ++ [p]
          | none => grammarRepoDir
        let srcPath := baseGrammarPath ++ ["src"]
        let parserPath := srcPath ++ ["parser.c"]
        let scannerPath := srcPath ++ ["scanner.c"]
        let args := clang_args wasiLibcPath grammarName grammarWasmPath srcPath parserPath
          scannerPath env.scannerExists
        match env.clangRun with
        | none => (Except.error "failed to run clang", repoOps ++ [Op.runClang args])
        | some out =>
          if !out.success then
            (Except.error ("failed to compile " ++ grammarName ++ " parser with clang: " ++ out.stderr),
              repoOps ++ [Op.runClang args])
          else (Except.ok (), repoOps ++ [Op.runClang args])

/-- The world as seen by `compile_rust_extension`: the `Cargo.toml` read
and parse outcomes, the cargo subprocess outcome, the read of the built
wasm file, the embedded api-version parse, and the final write. -/
structure RustExtEnv where
  cargoTomlRead : Option String
  cargoTomlParsed : Option CargoToml
  cargoRun : Option ProcOutput
  wasmRead : Option String
  apiVersion : Option String
  writeOk : Bool
deriving DecidableEq, Repr

/-- The deterministic artifact path probed by `compile_rust_extension`:
`extension_dir/target/<triple>/<profile>/<name with dashes replaced>`,
then `set_extension("wasm")`. -/
def rust_wasm_path (extensionDir : FsPath) (release : Bool) (packageName : String) : FsPath :=
  setExtension
    (extensionDir ++ ["target", RUST_TARGET, if release then "release" else "debug",
      replaceDashes packageName]) "wasm"

/-- `compile_rust_extension`: build the crate with cargo, read the
artifact at `rust_wasm_path`, parse its embedded api version, record it in
the manifest, and write `extension.wasm`.  Returns the result, the
manifest state, and the operations performed. -/
def compile_rust_extension (env : RustExtEnv) (options : CompileExtensionOptions)
    (extensionDir : FsPath) (m : ExtensionManifest) :
    (Except String Unit) × ExtensionManifest × List Op :=
  match env.cargoTomlRead with
  | none => (Except.error "failed to read Cargo.toml", m, [])
  | some _content =>
    match env.cargoTomlParsed with
    | none => (Except.error "failed to parse Cargo.toml", m, [])
    | some cargoToml =>
      match env.cargoRun with
      | none => (Except.error "failed to run `cargo`", m, [Op.runCargo])
      | some out =>
        if !out.success then
          (Except.error ("failed to build extension " ++ out.stderr), m, [Op.runCargo])
        else
          let wasmPath := rust_wasm_path extensionDir options.release cargoToml.package.name
          match env.wasmRead with
          | none =>
            (Except.error ("failed to read component module " ++ pathToString wasmPath), m, [Op.runCargo])
          | some _bytes =>
            match env.apiVersion with
            | none =>
              (Except.error "compiled wasm did not contain a valid zed extension api version", m,
                [Op.runCargo])
            | some version =>
              let m' := { m with lib := { m.lib with version := some version } }
              let extensionFile := extensionDir ++ ["extension.wasm"]
              if env.writeOk then
                (Except.ok (), m', [Op.runCargo, Op.writeFile extensionFile])
              else
                (Except.error "failed to write extension.wasm", m', [Op.runCargo, Op.writeFile extensionFile])

/-- The world as seen by `compile_extension`: the extension directory, the
disk layout for normalization, the cache directory and whether creating it
succeeds, the rust-compile world, and one grammar-compile world per
grammar name. -/
structure ExtEnv where
  extensionDir : FsPath
  disk : DiskState
  cacheDir : FsPath
  createCacheDirOk : Bool
  rust : RustExtEnv
  grammarEnv : String → GrammarEnv

/-- The grammar loop of `compile_extension`: each grammar is compiled in
manifest order; the first failure aborts with a context naming the
grammar. -/
def compileGrammarsLoop (genv : String → GrammarEnv) (extensionDir : FsPath) :
    List (String × GrammarManifestEntry) → (Except String Unit) × List Op
  | [] => (Except.ok (), [])
  | (name, entry) :: rest =>
    match compile_grammar (genv name) extensionDir name entry with
    | (Except.error e, ops) =>
      (Except.error ("failed to compile grammar '" ++ name ++ "': " ++ e), ops)
    | (Except.ok (), ops) =>
      match compileGrammarsLoop genv extensionDir rest with
      | (r, ops2) => (r, ops ++ ops2)

/-- `compile_extension`: normalize the manifest, then check that the
extension directory is absolute, create the cache directory, compile the
Rust library when the manifest declares one, and compile each grammar.
Returns the result, the manifest state (mutations persist on failure, as
with `&mut` in the source), and the operations performed. -/
def compile_extension (env : ExtEnv) (options : CompileExtensionOptions) (m : ExtensionManifest) :
    (Except String Unit) × ExtensionManifest × List Op :=
  match populate_defaults env.extensionDir env.disk m with
  | (Except.error e, m1) => (Except.error e, m1, [])
  | (Except.ok (), m1) =>
    if isRelativePath env.extensionDir then
      (Except.error ("extension dir " ++ pathToString env.extensionDir ++ " is not an absolute path"),
        m1, [])
    else if !env.createCacheDirOk then
      (Except.error "failed to create cache dir", m1, [Op.createDir env.cacheDir])
    else
      match
        (if m1.lib.kind = some ExtensionLibraryKind.Rust then
          match compile_rust_extension env.rust options env.extensionDir m1 with
          | (Except.error e, m2, ops) =>
            (Except.error ("failed to compile Rust extension: " ++ e), m2, ops)
          | (Except.ok (), m2, ops) => (Except.ok (), m2, ops)
        else (Except.ok (), m1, []))
      with
      | (Except.error e, m2, ops) => (Except.error e, m2, Op.createDir env.cacheDir :: ops)
      | (Except.ok (), m2, ops) =>
        match compileGrammarsLoop env.grammarEnv env.extensionDir m2.grammars with
        | (r, ops2) => (r, m2, (Op.createDir env.cacheDir :: ops) ++ ops2)

instance {ε α : Type} [DecidableEq ε] [DecidableEq α] : DecidableEq (Except ε α) := fun a b =>
  match a, b with
  | Except.ok x, Except.ok y =>
    if h : x = y then Decidable.isTrue (by rw [h])
    else Decidable.isFalse (by intro hc; cases hc; exact h rfl)
  | Except.error x, Except.error y =>
    if h : x = y then Decidable.isTrue (by rw [h])
    else Decidable.isFalse (by intro hc; cases hc; exact h rfl)
  | Except.ok _, Except.error _ => Decidable.isFalse (by intro hc; cases hc)
  | Except.error _, Except.ok _ => Decidable.isFalse (by intro hc; cases hc)

theorem checkout_repo_exists (env : RepoEnv) (d : FsPath) (u r : String)
    (h : env.directoryExists = true) :
    checkout_repo env d u r = (Except.ok (), [], true) := by
  simp [checkout_repo, h]

theorem checkout_repo_ok_dir_exists_after (env : RepoEnv) (d : FsPath) (u r : String)
    (h : (checkout_repo env d u r).1 = Except.ok ()) :
    (checkout_repo env d u r).2.2 = true := by
  by_cases h1 : env.directoryExists
  · simp [checkout_repo, h1]
  · by_cases h2 : env.createDirOk
    · rcases h3 : env.gitInitRes with _ | io <;>
      rcases h4 : env.remoteAddRes with _ | ro <;>
      rcases h5 : env.fetchRes with _ | fo <;>
      rcases h6 : env.checkoutRes with _ | co <;>
      simp [checkout_repo, h1, h2, h3, h4, h5, h6] <;> split_ifs <;> simp
    · exfalso
      simp [checkout_repo, h1, h2] at h

/-- Claim C5: if the target directory already exists, `checkout_repo`
succeeds unconditionally, creating no directory and spawning no git
subprocess; and after any successful call the directory exists, so a
second call with the same arguments does nothing and succeeds. -/
theorem c5_fetcher_idempotent (env : RepoEnv) (d : FsPath) (u r : String) :
    (env.directoryExists = true → checkout_repo env d u r = (Except.ok (), [], true)) ∧
    ((checkout_repo env d u r).1 = Except.ok () →
      (checkout_repo env d u r).2.2 = true ∧
      checkout_repo { env with directoryExists := true } d u r = (Except.ok (), [], true)) := by
  refine ⟨fun h => checkout_repo_exists env d u r h, fun h => ⟨checkout_repo_ok_dir_exists_after env d u r h, ?_⟩⟩
  exact checkout_repo_exists _ d u r rfl

/-- Witness for C5 at a concrete world where the directory already
exists. -/
theorem c5_fetcher_idempotent_witness :
    checkout_repo ⟨true, true, none, none, none, none⟩ ["", "x"] "u" "r" = (Except.ok (), [], true) ∧
    checkout_repo { (⟨true, true, none, none, none, none⟩ : RepoEnv) with directoryExists := true } ["", "x"] "u" "r" = (Except.ok (), [], true) :=
  ⟨(c5_fetcher_idempotent ⟨true, true, none, none, none, none⟩ ["", "x"] "u" "r").1 rfl,
    ((c5_fetcher_idempotent ⟨true, true, none, none, none, none⟩ ["", "x"] "u" "r").2 (by decide)).2⟩

/-- Claim C6: when the checkout subprocess exits non-zero, the error
reports the fetch failure (naming revision and directory) if the fetch
also exited non-zero, and otherwise reports the checkout failure, naming
the revision and directory and carrying the checkout stderr verbatim. -/
theorem c6_checkout_error_reporting (env : RepoEnv) (d : FsPath) (u r : String)
    (fo co io ro : ProcOutput)
    (hdir : env.directoryExists = false) (hmk : env.createDirOk = true)
    (hinit : env.gitInitRes = some io) (hinitOk : io.success = true)
    (hremote : env.remoteAddRes = some ro) (hremoteOk : ro.success = true)
    (hfetch : env.fetchRes = some fo)
    (hco : env.checkoutRes = some co) (hcoFail : co.success = false) :
    (checkout_repo env d u r).1 =
      Except.error
        (if fo.success then
          "failed to checkout revision " ++ r ++ " in directory '" ++ pathToString d ++ "': " ++ co.stderr
        else
          "failed to fetch revision " ++ r ++ " in directory '" ++ pathToString d ++ "'") := by
  simp only [checkout_repo, hdir, hmk, hinit, hremote, hfetch, hco, hinitOk, hremoteOk, hcoFail,
    Bool.not_true, Bool.not_false, if_false, if_true]
  cases hfs : fo.success <;> simp [hfs]

/-- Witness for C6: fetch succeeded, checkout failed; the error is the
checkout message with the stderr text. -/
theorem c6_checkout_error_reporting_witness :
    (checkout_repo ⟨false, true, some ⟨true, ""⟩, some ⟨true, ""⟩, some ⟨true, ""⟩, some ⟨false, "boom"⟩⟩ ["", "x"] "u" "deadbeef").1 =
      Except.error
        (if (⟨true, ""⟩ : ProcOutput).success then
          "failed to checkout revision " ++ "deadbeef" ++ " in directory '" ++ pathToString ["", "x"] ++ "': " ++ (⟨false, "boom"⟩ : ProcOutput).stderr
        else
          "failed to fetch revision " ++ "deadbeef" ++ " in directory '" ++ pathToString ["", "x"] ++ "'") :=
  c6_checkout_error_reporting _ ["", "x"] "u" "deadbeef" ⟨true, ""⟩ ⟨false, "boom"⟩ ⟨true, ""⟩ ⟨true, ""⟩
    rfl rfl rfl rfl rfl rfl rfl rfl rfl

/-- Claim C10: when every step up to and including the checkout spawn
happens and the checkout subprocess exits zero, `checkout_repo` returns
success — in particular a non-zero fetch exit status is swallowed and
never surfaced to the caller. -/
theorem c10_fetch_failure_swallowed (env : RepoEnv) (d : FsPath) (u r : String)
    (fo co io ro : ProcOutput)
    (hdir : env.directoryExists = false) (hmk : env.createDirOk = true)
    (hinit : env.gitInitRes = some io) (hinitOk : io.success = true)
    (hremote : env.remoteAddRes = some ro) (hremoteOk : ro.success = true)
    (hfetch : env.fetchRes = some fo) (hfetchFail : fo.success = false)
    (hco : env.checkoutRes = some co) (hcoOk : co.success = true) :
    (checkout_repo env d u r).1 = Except.ok () := by
  simp [checkout_repo, hdir, hmk, hinit, hremote, hfetch, hco, hinitOk, hremoteOk, hcoOk]

/-- Witness for C10: a failed fetch followed by a successful checkout
still reports success. -/
theorem c10_fetch_failure_swallowed_witness :
    (checkout_repo ⟨false, true, some ⟨true, ""⟩, some ⟨true, ""⟩, some ⟨false, "fetch err"⟩, some ⟨true, ""⟩⟩ ["", "x"] "u" "v1").1 = Except.ok () :=
  c10_fetch_failure_swallowed _ ["", "x"] "u" "v1" ⟨false, "fetch err"⟩ ⟨true, ""⟩ ⟨true, ""⟩ ⟨true, ""⟩
    rfl rfl rfl rfl rfl rfl rfl rfl rfl rfl

/-- Claim C7, counterexample to the claim as stated: with `WASI_LIBC_PATH`
unset but the `clang` lookup also failing, `compile_grammar` fails with
the `which` error, whose text does not contain the variable name. -/
theorem c7_counterexample :
    compile_grammar ⟨Except.error "cannot find clang in PATH", none, ⟨true, true, none, none, none, none⟩, false, none⟩
      ["", "ext"] "python" ⟨"https://example.com/repo", "abc123", none⟩ =
      (Except.error "cannot find clang in PATH", []) ∧
    ¬ List.IsInfix "WASI_LIBC_PATH".data "cannot find clang in PATH".data := by
  constructor
  · rfl
  · decide

/-- Claim C7 (amended): provided the `clang` executable is resolved
successfully, an unset `WASI_LIBC_PATH` makes `compile_grammar` abort
(the source panics via `.expect`) with the message
"WASI_LIBC_PATH environment variable not set", which names the variable,
before any operation — in particular before any compiler subprocess —
is performed for the grammar. -/
theorem c7_wasi_unset (env : GrammarEnv) (extDir : FsPath) (name : String)
    (entry : GrammarManifestEntry) (p : String)
    (h1 : env.clang = Except.ok p) (h2 : env.wasiLibcPath = none) :
    compile_grammar env extDir name entry =
      (Except.error "WASI_LIBC_PATH environment variable not set", []) := by
  simp [compile_grammar, h1, h2]

/-- Witness for C7 (amended) at a concrete world with clang present and
the variable unset. -/
theorem c7_wasi_unset_witness :
    compile_grammar ⟨Except.ok "/usr/bin/clang", none, ⟨true, true, none, none, none, none⟩, false, none⟩
      ["", "ext"] "python" ⟨"https://example.com/repo", "abc123", none⟩ =
      (Except.error "WASI_LIBC_PATH environment variable not set", []) :=
  c7_wasi_unset _ ["", "ext"] "python" ⟨"https://example.com/repo", "abc123", none⟩ "/usr/bin/clang" rfl rfl

/-- Claim C9: whenever `compile_grammar` reaches the compile step, the
clang invocation is exactly the fixed flag list with `src/parser.c`
always present, `src/scanner.c` present exactly when the scanner file
exists, the `tree_sitter_<name>` export flag, and `-I` followed by the
grammar's `src` subdirectory. -/
theorem c9_clang_invocation (env : GrammarEnv) (extDir : FsPath) (name : String)
    (entry : GrammarManifestEntry) (p w : String) (basePath srcPath : FsPath) (args : List String)
    (h1 : env.clang = Except.ok p) (h2 : env.wasiLibcPath = some w)
    (h3 : (checkout_repo env.repo (extDir ++ ["grammars", name]) entry.repository entry.rev).1 = Except.ok ())
    (hbase : basePath = (match entry.path with
      | some q => extDir ++ ["grammars", name] ++ [q]
      | none => extDir ++ ["grammars", name]))
    (hsrc : srcPath = basePath ++ ["src"])
    (hargs : args = ["--target=wasm32-wasi", "--sysroot=" ++ w, "-fPIC", "-shared", "-Os",
      "-Wl,--export=tree_sitter_" ++ name, "-o",
      pathToString (setExtension (extDir ++ ["grammars", name]) "wasm"),
      "-I", pathToString srcPath, pathToString (srcPath ++ ["parser.c"])]
      ++ (if env.scannerExists then [pathToString (srcPath ++ ["scanner.c"])] else [])) :
    (∃ preOps, (compile_grammar env extDir name entry).2 = preOps ++ [Op.runClang args]) ∧
    pathToString (srcPath ++ ["parser.c"]) ∈ args ∧
    (env.scannerExists = true → pathToString (srcPath ++ ["scanner.c"]) ∈ args) ∧
    ("-Wl,--export=tree_sitter_" ++ name) ∈ args ∧
    "-I" ∈ args ∧ pathToString srcPath ∈ args := by
  subst hargs hsrc hbase
  refine ⟨?_, ?_, ?_, ?_, ?_, ?_⟩
  · rcases hr : checkout_repo env.repo (extDir ++ ["grammars", name]) entry.repository entry.rev
      with ⟨r, ops, b⟩
    rw [hr] at h3
    simp only at h3
    subst h3
    refine ⟨ops, ?_⟩
    simp only [compile_grammar, h1, h2, hr, clang_args]
    rcases hc : env.clangRun with _ | out
    · rfl
    · cases hs : out.success <;> simp [hs]
  · cases env.scannerExists <;> simp
  · intro h; simp [h]
  · cases env.scannerExists <;> simp
  · cases env.scannerExists <;> simp
  · cases env.scannerExists <;> simp

/-- Witness for C9 at a concrete world: scanner present, cached
checkout. -/
theorem c9_clang_invocation_witness :
    (∃ preOps,
      (compile_grammar ⟨Except.ok "/usr/bin/clang", some "/wasi", ⟨true, true, none, none, none, none⟩, true, some ⟨true, ""⟩⟩
        ["", "ext"] "python" ⟨"u", "r", none⟩).2 = preOps ++
        [Op.runClang (["--target=wasm32-wasi", "--sysroot=" ++ "/wasi", "-fPIC", "-shared", "-Os",
          "-Wl,--export=tree_sitter_" ++ "python", "-o",
          pathToString (setExtension (["", "ext"] ++ ["grammars", "python"]) "wasm"),
          "-I", pathToString (["", "ext"] ++ ["grammars", "python"] ++ ["src"]),
          pathToString (["", "ext"] ++ ["grammars", "python"] ++ ["src"] ++ ["parser.c"])]
          ++ (if true then [pathToString (["", "ext"] ++ ["grammars", "python"] ++ ["src"] ++ ["scanner.c"])] else []))]) := by
  refine (c9_clang_invocation _ ["", "ext"] "python" ⟨"u", "r", none⟩ "/usr/bin/clang" "/wasi"
    (["", "ext"] ++ ["grammars", "python"]) (["", "ext"] ++ ["grammars", "python"] ++ ["src"]) _
    rfl rfl (by decide) rfl rfl rfl).1

theorem dropWhile_eq_nil_of_all {α : Type} (p : α → Bool) :
    ∀ l : List α, (∀ x ∈ l, p x) → l.dropWhile p = []
  | [], _ => rfl
  | x :: xs, h => by
    rw [List.dropWhile_cons, if_pos (h x (List.mem_cons_self x xs))]
    exact dropWhile_eq_nil_of_all p xs (fun y hy => h y (List.mem_cons_of_mem x hy))

theorem dropAfterLastDot_no_dot (cs : List Char) (h : '.' ∉ cs) : dropAfterLastDot cs = cs := by
  unfold dropAfterLastDot
  rw [dropWhile_eq_nil_of_all _ cs.reverse]
  intro x hx
  have : x ∈ cs := List.mem_reverse.mp hx
  simp only [Bool.not_eq_true']
  by_contra hc
  simp only [Bool.not_eq_false, decide_eq_true_eq] at hc
  exact h (hc ▸ this)

theorem fileStemChars_no_dot (cs : List Char) (h : '.' ∉ cs) : fileStemChars cs = cs := by
  unfold fileStemChars
  split
  · exact absurd (List.mem_cons_self _ _) h
  · exact dropAfterLastDot_no_dot cs h

theorem strDataAppend (a b : String) : (a ++ b).data = a.data ++ b.data := rfl

theorem strAppendAssoc (a b c : String) : a ++ b ++ c = a ++ (b ++ c) := by
  apply String.ext
  simp [strDataAppend, List.append_assoc]

theorem setExtComponent_no_dot (s e : String) (h : '.' ∉ s.data) :
    setExtComponent s e = s ++ ("." ++ e) := by
  unfold setExtComponent
  rw [fileStemChars_no_dot s.data h]
  exact strAppendAssoc s "." e

theorem setExtension_append (xs : List String) (y ext : String) :
    setExtension (xs ++ [y]) ext = xs ++ [setExtComponent y ext] := by
  induction xs with
  | nil => rfl
  | cons x xs ih =>
    cases xs with
    | nil => rfl
    | cons z zs => simpa [setExtension] using ih

theorem replaceDashes_no_dot (s : String) (h : '.' ∉ s.data) : '.' ∉ (replaceDashes s).data := by
  intro hc
  simp only [replaceDashes, List.mem_map] at hc
  obtain ⟨a, ha, hfa⟩ := hc
  by_cases hd : a = '-'
  · simp [hd] at hfa
  · rw [if_neg hd] at hfa
    exact h (hfa ▸ ha)

/-- Claim C8, counterexample to the claim as stated: a package name
containing a dot has its trailing text replaced, not appended to, because
the source uses `set_extension`; `foo.bar` resolves to `foo.wasm` rather
than `foo.bar.wasm`. -/
theorem c8_counterexample :
    rust_wasm_path ["", "ext"] false "foo.bar" =
      ["", "ext", "target", "wasm32-wasip2", "debug", "foo.wasm"] ∧
    rust_wasm_path ["", "ext"] false "foo.bar" ≠
      ["", "ext", "target", "wasm32-wasip2", "debug", "foo.bar.wasm"] := by
  constructor
  · decide
  · decide

/-- Claim C8 (amended): for every package name without a dot (every name
cargo itself accepts), the artifact is probed at exactly
`extension_dir/target/wasm32-wasip2/<release or debug>/<name with dashes
replaced by underscores>.wasm`; when the normalized name contains a dot,
`set_extension` instead replaces the text after the final dot. -/
theorem c8_wasm_path (extensionDir : FsPath) (release : Bool) (name : String)
    (h : '.' ∉ name.data) :
    rust_wasm_path extensionDir release name =
      extensionDir ++ ["target", "wasm32-wasip2", if release then "release" else "debug",
        replaceDashes name ++ ".wasm"] := by
  unfold rust_wasm_path RUST_TARGET
  have hsplit : extensionDir ++ ["target", "wasm32-wasip2",
      if release then "release" else "debug", replaceDashes name] =
      (extensionDir ++ ["target", "wasm32-wasip2", if release then "release" else "debug"]) ++
        [replaceDashes name] := by
    simp
  rw [hsplit, setExtension_append, setExtComponent_no_dot _ _ (replaceDashes_no_dot name h)]
  have hdot : ("." ++ "wasm" : String) = ".wasm" := by decide
  rw [hdot]
  simp

/-- Witness for C8 (amended): `my-extension` in release mode resolves to
a path whose final component is `my_extension.wasm`. -/
theorem c8_wasm_path_witness :
    rust_wasm_path ["", "ext"] true "my-extension" =
      ["", "ext", "target", "wasm32-wasip2", "release", "my_extension.wasm"] :=
  (c8_wasm_path ["", "ext"] true "my-extension" (by decide)).trans (by decide)

theorem addLanguageEntry_shape (m : ExtensionManifest) (e : LanguageDirEntry) :
    ∃ l, addLanguageEntry m e = { m with languages := l } := by
  unfold addLanguageEntry
  by_cases h : e.hasConfigToml
  · by_cases h2 : m.languages.contains ["languages", e.name]
    · exact ⟨m.languages, by rw [if_pos h, if_pos h2]⟩
    · exact ⟨m.languages ++ [["languages", e.name]], by rw [if_pos h, if_neg h2]⟩
  · exact ⟨m.languages, by rw [if_neg h]⟩

theorem addLanguages_shape (es : List LanguageDirEntry) :
    ∀ m, ∃ l, addLanguages es m = { m with languages := l } := by
  induction es with
  | nil => exact fun m => ⟨m.languages, rfl⟩
  | cons e es ih =>
    intro m
    obtain ⟨l1, h1⟩ := addLanguageEntry_shape m e
    obtain ⟨l2, h2⟩ := ih (addLanguageEntry m e)
    refine ⟨l2, ?_⟩
    show addLanguages es (addLanguageEntry m e) = _
    rw [h2, h1]

theorem addThemeEntry_shape (m : ExtensionManifest) (e : DirFileEntry) :
    ∃ l, addThemeEntry m e = { m with themes := l } := by
  unfold addThemeEntry
  by_cases h : e.ext = some "json"
  · by_cases h2 : m.themes.contains ["themes", entryFileName e]
    · exact ⟨m.themes, by rw [if_pos h, if_pos h2]⟩
    · exact ⟨m.themes ++ [["themes", entryFileName e]], by rw [if_pos h, if_neg h2]⟩
  · exact ⟨m.themes, by rw [if_neg h]⟩

theorem addThemes_shape (es : List DirFileEntry) :
    ∀ m, ∃ l, addThemes es m = { m with themes := l } := by
  induction es with
  | nil => exact fun m => ⟨m.themes, rfl⟩
  | cons e es ih =>
    intro m
    obtain ⟨l1, h1⟩ := addThemeEntry_shape m e
    obtain ⟨l2, h2⟩ := ih (addThemeEntry m e)
    refine ⟨l2, ?_⟩
    show addThemes es (addThemeEntry m e) = _
    rw [h2, h1]

theorem addIconThemeEntry_shape (m : ExtensionManifest) (e : DirFileEntry) :
    ∃ l, addIconThemeEntry m e = { m with icon_themes := l } := by
  unfold addIconThemeEntry
  by_cases h : e.ext = some "json"
  · by_cases h2 : m.icon_themes.contains ["icon_themes", entryFileName e]
    · exact ⟨m.icon_themes, by rw [if_pos h, if_pos h2]⟩
    · exact ⟨m.icon_themes ++ [["icon_themes", entryFileName e]], by rw [if_pos h, if_neg h2]⟩
  · exact ⟨m.icon_themes, by rw [if_neg h]⟩

theorem addIconThemes_shape (es : List DirFileEntry) :
    ∀ m, ∃ l, addIconThemes es m = { m with icon_themes := l } := by
  induction es with
  | nil => exact fun m => ⟨m.icon_themes, rfl⟩
  | cons e es ih =>
    intro m
    obtain ⟨l1, h1⟩ := addIconThemeEntry_shape m e
    obtain ⟨l2, h2⟩ := ih (addIconThemeEntry m e)
    refine ⟨l2, ?_⟩
    show addIconThemes es (addIconThemeEntry m e) = _
    rw [h2, h1]

theorem applyCargoDefault_shape (disk : DiskState) (m : ExtensionManifest) :
    ∃ k, applyCargoDefault disk m = { m with lib := { m.lib with kind := k } } := by
  unfold applyCargoDefault
  by_cases h : disk.cargoTomlExists
  · exact ⟨some ExtensionLibraryKind.Rust, by simp [h]⟩
  · exact ⟨m.lib.kind, by simp [h]⟩

theorem applyLanguages_shape (disk : DiskState) (m : ExtensionManifest) :
    ∃ l, applyLanguages disk m = { m with languages := l } := by
  unfold applyLanguages
  cases disk.languagesDir with
  | none => exact ⟨m.languages, rfl⟩
  | some es => exact addLanguages_shape es m

theorem applyThemes_shape (disk : DiskState) (m : ExtensionManifest) :
    ∃ l, applyThemes disk m = { m with themes := l } := by
  unfold applyThemes
  cases disk.themesDir with
  | none => exact ⟨m.themes, rfl⟩
  | some es => exact addThemes_shape es m

theorem applyIconThemes_shape (disk : DiskState) (m : ExtensionManifest) :
    ∃ l, applyIconThemes disk m = { m with icon_themes := l } := by
  unfold applyIconThemes
  cases disk.iconThemesDir with
  | none => exact ⟨m.icon_themes, rfl⟩
  | some es => exact addIconThemes_shape es m

theorem applySnippets_shape (p : FsPath) (disk : DiskState) (m : ExtensionManifest) :
    ∃ s, applySnippets p disk m = { m with snippets := s } := by
  unfold applySnippets
  by_cases h : disk.snippetsJsonExists
  · exact ⟨some (p ++ ["snippets.json"]), by simp [h]⟩
  · exact ⟨m.snippets, by simp [h]⟩

theorem populateGrammarTomls_shape (es : List GrammarTomlFile) :
    ∀ m, ∃ r g, populateGrammarTomls es m = (r, { m with grammars := g }) := by
  induction es with
  | nil => exact fun m => ⟨Except.ok (), m.grammars, rfl⟩
  | cons e es ih =>
    intro m
    unfold populateGrammarTomls
    by_cases he : e.ext = some "toml"
    · cases hp : e.parsed with
      | none => exact ⟨Except.error "failed to parse grammar toml", m.grammars, by simp [he, hp]⟩
      | some cfg =>
        by_cases hc : containsKey m.grammars e.stem
        · obtain ⟨r, g, hg⟩ := ih m
          exact ⟨r, g, by simp [he, hp, hc, hg]⟩
        · obtain ⟨r, g, hg⟩ := ih { m with grammars := m.grammars ++ [(e.stem, ⟨cfg.repository, cfg.commit, cfg.path⟩)] }
          exact ⟨r, g, by simp [he, hp, hc, hg]⟩
    · obtain ⟨r, g, hg⟩ := ih m
      exact ⟨r, g, by simp [he, hg]⟩

theorem addLanguages_append (es : List LanguageDirEntry) :
    ∀ m, ∃ t, (addLanguages es m).languages = m.languages ++ t ∧
      ∀ x ∈ t, x ∉ m.languages ∧
        x ∈ (es.filter (fun e => e.hasConfigToml)).map (fun e => (["languages", e.name] : FsPath)) := by
  induction es with
  | nil => exact fun m => ⟨[], by simp [addLanguages]⟩
  | cons e es ih =>
    intro m
    obtain ⟨t, ht, hmem⟩ := ih (addLanguageEntry m e)
    by_cases h : e.hasConfigToml
    · by_cases h2 : m.languages.contains ["languages", e.name]
      · have hEq : addLanguageEntry m e = m := by
          unfold addLanguageEntry; rw [if_pos h, if_pos h2]
        refine ⟨t, ?_, ?_⟩
        · show (addLanguages es (addLanguageEntry m e)).languages = m.languages ++ t
          rw [ht, hEq]
        · intro x hx
          have hx' := hmem x hx
          rw [hEq] at hx'
          refine ⟨hx'.1, ?_⟩
          rw [List.filter_cons_of_pos h]
          exact List.mem_cons_of_mem _ (by exact hx'.2)
      · have hEq : addLanguageEntry m e =
            { m with languages := m.languages ++ [["languages", e.name]] } := by
          unfold addLanguageEntry; rw [if_pos h, if_neg h2]
        refine ⟨["languages", e.name] :: t, ?_, ?_⟩
        · show (addLanguages es (addLanguageEntry m e)).languages =
            m.languages ++ (["languages", e.name] :: t)
          rw [ht, hEq]
          simp
        · intro x hx
          rcases List.mem_cons.mp hx with hx' | hx'
        
          · subst hx'
            refine ⟨by simpa using h2, ?_⟩
            rw [List.filter_cons_of_pos h]
            exact List.mem_cons_self _ _
          · have hx'' := hmem x hx'
            rw [hEq] at hx''
            refine ⟨fun hin => hx''.1 (List.mem_append_left _ hin), ?_⟩
            rw [List.filter_cons_of_pos h]
            exact List.mem_cons_of_mem _ (by exact hx''.2)
    · have hEq : addLanguageEntry m e = m := by
        unfold addLanguageEntry; rw [if_neg h]
      refine ⟨t, ?_, ?_⟩
      · show (addLanguages es (addLanguageEntry m e)).languages = m.languages ++ t
        rw [ht, hEq]
      · intro x hx
        have hx' := hmem x hx
        rw [hEq] at hx'
        refine ⟨hx'.1, ?_⟩
        rw [List.filter_cons_of_neg (by simpa using h)]
        exact hx'.2

theorem addThemes_append (es : List DirFileEntry) :
    ∀ m, ∃ t, (addThemes es m).themes = m.themes ++ t ∧
      ∀ x ∈ t, x ∉ m.themes ∧
        x ∈ (es.filter (fun e => e.ext = some "json")).map (fun e => (["themes", entryFileName e] : FsPath)) := by
  induction es with
  | nil => exact fun m => ⟨[], by simp [addThemes]⟩
  | cons e es ih =>
    intro m
    obtain ⟨t, ht, hmem⟩ := ih (addThemeEntry m e)
    by_cases h : e.ext = some "json"
    · by_cases h2 : m.themes.contains ["themes", entryFileName e]
      · have hEq : addThemeEntry m e = m := by
          unfold addThemeEntry; rw [if_pos h, if_pos h2]
        refine ⟨t, ?_, ?_⟩
        · show (addThemes es (addThemeEntry m e)).themes = m.themes ++ t
          rw [ht, hEq]
        · intro x hx
          have hx' := hmem x hx
          rw [hEq] at hx'
          refine ⟨hx'.1, ?_⟩
          rw [List.filter_cons_of_pos (by simp [h])]
          exact List.mem_cons_of_mem _ (by exact hx'.2)
      · have hEq : addThemeEntry m e =
            { m with themes := m.themes ++ [["themes", entryFileName e]] } := by
          unfold addThemeEntry; rw [if_pos h, if_neg h2]
        refine ⟨["themes", entryFileName e] :: t, ?_, ?_⟩
        · show (addThemes es (addThemeEntry m e)).themes =
            m.themes ++ (["themes", entryFileName e] :: t)
          rw [ht, hEq]
          simp
        · intro x hx
          rcases List.mem_cons.mp hx with hx' | hx'
        
          · subst hx'
            refine ⟨by simpa using h2, ?_⟩
            rw [List.filter_cons_of_pos (by simp [h])]
            exact List.mem_cons_self _ _
          · have hx'' := hmem x hx'
            rw [hEq] at hx''
            refine ⟨fun hin => hx''.1 (List.mem_append_left _ hin), ?_⟩
            rw [List.filter_cons_of_pos (by simp [h])]
            exact List.mem_cons_of_mem _ (by exact hx''.2)
    · have hEq : addThemeEntry m e = m := by
        unfold addThemeEntry; rw [if_neg h]
      refine ⟨t, ?_, ?_⟩
      · show (addThemes es (addThemeEntry m e)).themes = m.themes ++ t
        rw [ht, hEq]
      · intro x hx
        have hx' := hmem x hx
        rw [hEq] at hx'
        refine ⟨hx'.1, ?_⟩
        rw [List.filter_cons_of_neg (by simp [h])]
        exact hx'.2

theorem addIconThemes_append (es : List DirFileEntry) :
    ∀ m, ∃ t, (addIconThemes es m).icon_themes = m.icon_themes ++ t ∧
      ∀ x ∈ t, x ∉ m.icon_themes ∧
        x ∈ (es.filter (fun e => e.ext = some "json")).map (fun e => (["icon_themes", entryFileName e] : FsPath)) := by
  induction es with
  | nil => exact fun m => ⟨[], by simp [addIconThemes]⟩
  | cons e es ih =>
    intro m
    obtain ⟨t, ht, hmem⟩ := ih (addIconThemeEntry m e)
    by_cases h : e.ext = some "json"
    · by_cases h2 : m.icon_themes.contains ["icon_themes", entryFileName e]
      · have hEq : addIconThemeEntry m e = m := by
          unfold addIconThemeEntry; rw [if_pos h, if_pos h2]
        refine ⟨t, ?_, ?_⟩
        · show (addIconThemes es (addIconThemeEntry m e)).icon_themes = m.icon_themes ++ t
          rw [ht, hEq]
        · intro x hx
          have hx' := hmem x hx
          rw [hEq] at hx'
          refine ⟨hx'.1, ?_⟩
          rw [List.filter_cons_of_pos (by simp [h])]
          exact List.mem_cons_of_mem _ (by exact hx'.2)
      · have hEq : addIconThemeEntry m e =
            { m with icon_themes := m.icon_themes ++ [["icon_themes", entryFileName e]] } := by
          unfold addIconThemeEntry; rw [if_pos h, if_neg h2]
        refine ⟨["icon_themes", entryFileName e] :: t, ?_, ?_⟩
        · show (addIconThemes es (addIconThemeEntry m e)).icon_themes =
            m.icon_themes ++ (["icon_themes", entryFileName e] :: t)
          rw [ht, hEq]
          simp
        · intro x hx
          rcases List.mem_cons.mp hx with hx' | hx'
        
          · subst hx'
            refine ⟨by simpa using h2, ?_⟩
            rw [List.filter_cons_of_pos (by simp [h])]
            exact List.mem_cons_self _ _
          · have hx'' := hmem x hx'
            rw [hEq] at hx''
            refine ⟨fun hin => hx''.1 (List.mem_append_left _ hin), ?_⟩
            rw [List.filter_cons_of_pos (by simp [h])]
            exact List.mem_cons_of_mem _ (by exact hx''.2)
    · have hEq : addIconThemeEntry m e = m := by
        unfold addIconThemeEntry; rw [if_neg h]
      refine ⟨t, ?_, ?_⟩
      · show (addIconThemes es (addIconThemeEntry m e)).icon_themes = m.icon_themes ++ t
        rw [ht, hEq]
      · intro x hx
        have hx' := hmem x hx
        rw [hEq] at hx'
        refine ⟨hx'.1, ?_⟩
        rw [List.filter_cons_of_neg (by simp [h])]
        exact hx'.2

theorem applyLanguages_append (disk : DiskState) (m : ExtensionManifest) :
    ∃ t, (applyLanguages disk m).languages = m.languages ++ t ∧
      ∀ x ∈ t, x ∉ m.languages ∧ x ∈ derivedLanguages disk := by
  unfold applyLanguages derivedLanguages
  cases disk.languagesDir with
  | none => exact ⟨[], by simp⟩
  | some es => exact addLanguages_append es m

theorem applyThemes_append (disk : DiskState) (m : ExtensionManifest) :
    ∃ t, (applyThemes disk m).themes = m.themes ++ t ∧
      ∀ x ∈ t, x ∉ m.themes ∧ x ∈ derivedThemes disk := by
  unfold applyThemes derivedThemes
  cases disk.themesDir with
  | none => exact ⟨[], by simp⟩
  | some es => exact addThemes_append es m

theorem applyIconThemes_append (disk : DiskState) (m : ExtensionManifest) :
    ∃ t, (applyIconThemes disk m).icon_themes = m.icon_themes ++ t ∧
      ∀ x ∈ t, x ∉ m.icon_themes ∧ x ∈ derivedIconThemes disk := by
  unfold applyIconThemes derivedIconThemes
  cases disk.iconThemesDir with
  | none => exact ⟨[], by simp⟩
  | some es => exact addIconThemes_append es m

theorem applyDiskPhases_grammars (p : FsPath) (disk : DiskState) (m : ExtensionManifest) :
    (applyDiskPhases p disk m).grammars = m.grammars := by
  obtain ⟨k, h1⟩ := applyCargoDefault_shape disk m
  obtain ⟨l1, h2⟩ := applyLanguages_shape disk (applyCargoDefault disk m)
  obtain ⟨l2, h3⟩ := applyThemes_shape disk (applyLanguages disk (applyCargoDefault disk m))
  obtain ⟨l3, h4⟩ := applyIconThemes_shape disk
    (applyThemes disk (applyLanguages disk (applyCargoDefault disk m)))
  obtain ⟨s, h5⟩ := applySnippets_shape p disk
    (applyIconThemes disk (applyThemes disk (applyLanguages disk (applyCargoDefault disk m))))
  unfold applyDiskPhases
  rw [h5, h4, h3, h2, h1]

theorem applyDiskPhases_schema (p : FsPath) (disk : DiskState) (m : ExtensionManifest) :
    (applyDiskPhases p disk m).schema_version = m.schema_version := by
  obtain ⟨k, h1⟩ := applyCargoDefault_shape disk m
  obtain ⟨l1, h2⟩ := applyLanguages_shape disk (applyCargoDefault disk m)
  obtain ⟨l2, h3⟩ := applyThemes_shape disk (applyLanguages disk (applyCargoDefault disk m))
  obtain ⟨l3, h4⟩ := applyIconThemes_shape disk
    (applyThemes disk (applyLanguages disk (applyCargoDefault disk m)))
  obtain ⟨s, h5⟩ := applySnippets_shape p disk
    (applyIconThemes disk (applyThemes disk (applyLanguages disk (applyCargoDefault disk m))))
  unfold applyDiskPhases
  rw [h5, h4, h3, h2, h1]

theorem applyDiskPhases_lib_version (p : FsPath) (disk : DiskState) (m : ExtensionManifest) :
    (applyDiskPhases p disk m).lib.version = m.lib.version := by
  obtain ⟨k, h1⟩ := applyCargoDefault_shape disk m
  obtain ⟨l1, h2⟩ := applyLanguages_shape disk (applyCargoDefault disk m)
  obtain ⟨l2, h3⟩ := applyThemes_shape disk (applyLanguages disk (applyCargoDefault disk m))
  obtain ⟨l3, h4⟩ := applyIconThemes_shape disk
    (applyThemes disk (applyLanguages disk (applyCargoDefault disk m)))
  obtain ⟨s, h5⟩ := applySnippets_shape p disk
    (applyIconThemes disk (applyThemes disk (applyLanguages disk (applyCargoDefault disk m))))
  unfold applyDiskPhases
  rw [h5, h4, h3, h2, h1]

theorem applyDiskPhases_languages (p : FsPath) (disk : DiskState) (m : ExtensionManifest) :
    ∃ t, (applyDiskPhases p disk m).languages = m.languages ++ t ∧
      ∀ x ∈ t, x ∉ m.languages ∧ x ∈ derivedLanguages disk := by
  obtain ⟨k, h1⟩ := applyCargoDefault_shape disk m
  obtain ⟨t, ht, hmem⟩ := applyLanguages_append disk (applyCargoDefault disk m)
  obtain ⟨l2, h3⟩ := applyThemes_shape disk (applyLanguages disk (applyCargoDefault disk m))
  obtain ⟨l3, h4⟩ := applyIconThemes_shape disk
    (applyThemes disk (applyLanguages disk (applyCargoDefault disk m)))
  obtain ⟨s, h5⟩ := applySnippets_shape p disk
    (applyIconThemes disk (applyThemes disk (applyLanguages disk (applyCargoDefault disk m))))
  refine ⟨t, ?_, ?_⟩
  · unfold applyDiskPhases
    rw [h5, h4, h3]
    show (applyLanguages disk (applyCargoDefault disk m)).languages = m.languages ++ t
    rw [ht, h1]
  · intro x hx
    have hx' := hmem x hx
    rw [h1] at hx'
    exact ⟨hx'.1, hx'.2⟩

theorem applyDiskPhases_themes (p : FsPath) (disk : DiskState) (m : ExtensionManifest) :
    ∃ t, (applyDiskPhases p disk m).themes = m.themes ++ t ∧
      ∀ x ∈ t, x ∉ m.themes ∧ x ∈ derivedThemes disk := by
  obtain ⟨k, h1⟩ := applyCargoDefault_shape disk m
  obtain ⟨l1, h2⟩ := applyLanguages_shape disk (applyCargoDefault disk m)
  obtain ⟨t, ht, hmem⟩ := applyThemes_append disk (applyLanguages disk (applyCargoDefault disk m))
  obtain ⟨l3, h4⟩ := applyIconThemes_shape disk
    (applyThemes disk (applyLanguages disk (applyCargoDefault disk m)))
  obtain ⟨s, h5⟩ := applySnippets_shape p disk
    (applyIconThemes disk (applyThemes disk (applyLanguages disk (applyCargoDefault disk m))))
  refine ⟨t, ?_, ?_⟩
  · unfold applyDiskPhases
    rw [h5, h4]
    show (applyThemes disk (applyLanguages disk (applyCargoDefault disk m))).themes = m.themes ++ t
    rw [ht, h2, h1]
  · intro x hx
    have hx' := hmem x hx
    rw [h2, h1] at hx'
    exact ⟨hx'.1, hx'.2⟩

theorem applyDiskPhases_icon_themes (p : FsPath) (disk : DiskState) (m : ExtensionManifest) :
    ∃ t, (applyDiskPhases p disk m).icon_themes = m.icon_themes ++ t ∧
      ∀ x ∈ t, x ∉ m.icon_themes ∧ x ∈ derivedIconThemes disk := by
  obtain ⟨k, h1⟩ := applyCargoDefault_shape disk m
  obtain ⟨l1, h2⟩ := applyLanguages_shape disk (applyCargoDefault disk m)
  obtain ⟨l2, h3⟩ := applyThemes_shape disk (applyLanguages disk (applyCargoDefault disk m))
  obtain ⟨t, ht, hmem⟩ := applyIconThemes_append disk
    (applyThemes disk (applyLanguages disk (applyCargoDefault disk m)))
  obtain ⟨s, h5⟩ := applySnippets_shape p disk
    (applyIconThemes disk (applyThemes disk (applyLanguages disk (applyCargoDefault disk m))))
  refine ⟨t, ?_, ?_⟩
  · unfold applyDiskPhases
    rw [h5]
    show (applyIconThemes disk (applyThemes disk (applyLanguages disk (applyCargoDefault disk m)))).icon_themes = m.icon_themes ++ t
    rw [ht, h3, h2, h1]
  · intro x hx
    have hx' := hmem x hx
    rw [h3, h2, h1] at hx'
    exact ⟨hx'.1, hx'.2⟩

theorem populate_defaults_nonv0 (p : FsPath) (disk : DiskState) (m : ExtensionManifest)
    (h : schemaIsV0 m.schema_version = false) :
    populate_defaults p disk m = (Except.ok (), applyDiskPhases p disk m) := by
  unfold populate_defaults
  simp only [h, Bool.false_eq_true, if_false, applyDiskPhases_schema]

theorem populateGrammarTomls_lib_version (es : List GrammarTomlFile) (m : ExtensionManifest) :
    (populateGrammarTomls es m).2.lib.version = m.lib.version := by
  obtain ⟨r, g, hg⟩ := populateGrammarTomls_shape es m
  rw [hg]

theorem populate_defaults_v0_eq (p : FsPath) (disk : DiskState) (m : ExtensionManifest)
    (h : schemaIsV0 m.schema_version = true) :
    populate_defaults p disk m =
      (match disk.grammarsDir with
       | none => (Except.ok (), applyDiskPhases p disk (clearComputed m))
       | some es => populateGrammarTomls es (applyDiskPhases p disk (clearComputed m))) := by
  unfold populate_defaults
  have h2 : schemaIsV0 (applyDiskPhases p disk (clearComputed m)).schema_version = true := by
    rw [applyDiskPhases_schema]; exact h
  simp [h, h2]

theorem populate_defaults_version (p : FsPath) (disk : DiskState) (m : ExtensionManifest) :
    (populate_defaults p disk m).2.lib.version = m.lib.version := by
  by_cases hv : schemaIsV0 m.schema_version
  · rw [populate_defaults_v0_eq p disk m hv]
    cases hg : disk.grammarsDir with
    | none => simp [applyDiskPhases_lib_version, clearComputed]
    | some es =>
      rw [populateGrammarTomls_lib_version, applyDiskPhases_lib_version]
      rfl
  · have hv2 : schemaIsV0 m.schema_version = false := by
      cases hb : schemaIsV0 m.schema_version
      · rfl
      · exact absurd hb hv
    rw [populate_defaults_nonv0 p disk m hv2]
    simp [applyDiskPhases_lib_version]

/-- Claim C4: for a non-legacy manifest, successful normalization keeps
every pre-existing entry of the languages, themes, icon-themes and
grammars collections (each collection is extended only by appending
disk-derived entries not already present; grammars are untouched). -/
theorem c4_nonlegacy_append (p : FsPath) (disk : DiskState) (m m' : ExtensionManifest)
    (h : schemaIsV0 m.schema_version = false)
    (hp : populate_defaults p disk m = (Except.ok (), m')) :
    (∃ t, m'.languages = m.languages ++ t ∧
      ∀ x ∈ t, x ∉ m.languages ∧ x ∈ derivedLanguages disk) ∧
    (∃ t, m'.themes = m.themes ++ t ∧
      ∀ x ∈ t, x ∉ m.themes ∧ x ∈ derivedThemes disk) ∧
    (∃ t, m'.icon_themes = m.icon_themes ++ t ∧
      ∀ x ∈ t, x ∉ m.icon_themes ∧ x ∈ derivedIconThemes disk) ∧
    m'.grammars = m.grammars := by
  rw [populate_defaults_nonv0 p disk m h] at hp
  have hm : m' = applyDiskPhases p disk m := (congrArg Prod.snd hp).symm
  subst hm
  exact ⟨applyDiskPhases_languages p disk m, applyDiskPhases_themes p disk m,
    applyDiskPhases_icon_themes p disk m, applyDiskPhases_grammars p disk m⟩

/-- Witness for C4 at a concrete non-legacy manifest and disk layout:
the pre-existing language path survives and the disk-derived one is
appended. -/
theorem c4_nonlegacy_append_witness :
    ∃ t, (populate_defaults ["", "ext"]
      (DiskState.mk false (some [LanguageDirEntry.mk "python" true]) none none false none)
      (ExtensionManifest.mk "e" 1 (LibManifestEntry.mk none none)
        [["languages", "old"]] [] [] [("g", GrammarManifestEntry.mk "u" "r" none)] none)).2.languages =
      [["languages", "old"]] ++ t := by
  obtain ⟨⟨t, ht, -⟩, -, -, -⟩ := c4_nonlegacy_append ["", "ext"]
    (DiskState.mk false (some [LanguageDirEntry.mk "python" true]) none none false none)
    (ExtensionManifest.mk "e" 1 (LibManifestEntry.mk none none)
      [["languages", "old"]] [] [] [("g", GrammarManifestEntry.mk "u" "r" none)] none)
    (populate_defaults ["", "ext"]
      (DiskState.mk false (some [LanguageDirEntry.mk "python" true]) none none false none)
      (ExtensionManifest.mk "e" 1 (LibManifestEntry.mk none none)
        [["languages", "old"]] [] [] [("g", GrammarManifestEntry.mk "u" "r" none)] none)).2
    (by decide) (by decide)
  exact ⟨t, ht⟩

/-- Claim C3, counterexample to the claim as stated: for a legacy (v0)
manifest, a manually declared grammar entry is NOT preserved over a
disk-derived grammar TOML with the same name — the v0 clearing step
discards it first, so the disk-derived entry wins. -/
theorem c3_counterexample :
    (populate_defaults ["", "ext"]
      (DiskState.mk false none none none false
        (some [GrammarTomlFile.mk "g" (some "toml") (some (GrammarConfigToml.mk "r2" "c2" none))]))
      (ExtensionManifest.mk "e" 0 (LibManifestEntry.mk none none) [] [] []
        [("g", GrammarManifestEntry.mk "r1" "c1" none)] none)).2.grammars =
      [("g", GrammarManifestEntry.mk "r2" "c2" none)] ∧
    GrammarManifestEntry.mk "r2" "c2" none ≠ GrammarManifestEntry.mk "r1" "c1" none := by
  constructor
  · decide
  · decide

/-- Claim C3 (amended): for a legacy (v0) manifest, normalization behaves
exactly as if the languages, themes and grammars collections were empty
on entry: all pre-existing entries — including manually declared grammar
entries — are discarded and replaced by disk-derived values; the
"already exists" check only deduplicates among entries inserted during
the same pass. -/
theorem c3_v0_replaced (p : FsPath) (disk : DiskState) (m : ExtensionManifest)
    (h : schemaIsV0 m.schema_version = true) :
    populate_defaults p disk m = populate_defaults p disk (clearComputed m) := by
  have h2 : schemaIsV0 (clearComputed m).schema_version = true := h
  have h3 : clearComputed (clearComputed m) = clearComputed m := rfl
  simp only [populate_defaults, h, h2, if_true, h3]

/-- Witness for C3 (amended) at a concrete v0 manifest with pre-existing
entries. -/
theorem c3_v0_replaced_witness :
    populate_defaults ["", "ext"]
      (DiskState.mk false none none none false
        (some [GrammarTomlFile.mk "h" (some "toml") (some (GrammarConfigToml.mk "r3" "c3" none))]))
      (ExtensionManifest.mk "e" 0 (LibManifestEntry.mk none none) [["languages", "x"]] [] []
        [("h", GrammarManifestEntry.mk "r0" "c0" none)] none) =
    populate_defaults ["", "ext"]
      (DiskState.mk false none none none false
        (some [GrammarTomlFile.mk "h" (some "toml") (some (GrammarConfigToml.mk "r3" "c3" none))]))
      (clearComputed (ExtensionManifest.mk "e" 0 (LibManifestEntry.mk none none) [["languages", "x"]] [] []
        [("h", GrammarManifestEntry.mk "r0" "c0" none)] none)) :=
  c3_v0_replaced ["", "ext"]
    (DiskState.mk false none none none false
      (some [GrammarTomlFile.mk "h" (some "toml") (some (GrammarConfigToml.mk "r3" "c3" none))]))
    (ExtensionManifest.mk "e" 0 (LibManifestEntry.mk none none) [["languages", "x"]] [] []
      [("h", GrammarManifestEntry.mk "r0" "c0" none)] none) rfl

theorem compile_rust_extension_ok (env : RustExtEnv) (o : CompileExtensionOptions)
    (d : FsPath) (m m' : ExtensionManifest) (ops : List Op)
    (h : compile_rust_extension env o d m = (Except.ok (), m', ops)) :
    ∃ v, m' = { m with lib := { m.lib with version := some v } } := by
  rcases h1 : env.cargoTomlRead with _ | content
  · simp [compile_rust_extension, h1] at h
  · rcases h2 : env.cargoTomlParsed with _ | ct
    · simp [compile_rust_extension, h1, h2] at h
    · rcases h3 : env.cargoRun with _ | out
      · simp [compile_rust_extension, h1, h2, h3] at h
      · cases hs : out.success
        · simp [compile_rust_extension, h1, h2, h3, hs] at h
        · rcases h4 : env.wasmRead with _ | bytes
          · simp [compile_rust_extension, h1, h2, h3, hs, h4] at h
          · rcases h5 : env.apiVersion with _ | v
            · simp [compile_rust_extension, h1, h2, h3, hs, h4, h5] at h
            · cases hw : env.writeOk
              · simp [compile_rust_extension, h1, h2, h3, hs, h4, h5, hw] at h
              · simp [compile_rust_extension, h1, h2, h3, hs, h4, h5, hw, Prod.mk.injEq] at h
                exact ⟨v, by rw [← h.1]⟩

/-- Claim C1, counterexample to the claim as stated: `compile_extension`
never clears a pre-set `lib.version`, so a manifest arriving with
`lib.kind = none` and `lib.version = some v` still has `lib.version`
`Some` after a fully successful build with no native library. -/
theorem c1_counterexample :
    compile_extension
      (ExtEnv.mk ["", "ext"]
        (DiskState.mk false none none none false none)
        ["", "cache"] true
        (RustExtEnv.mk none none none none none true)
        (fun _ => GrammarEnv.mk (Except.error "unused") none
          (RepoEnv.mk true true none none none none) false none))
      (CompileExtensionOptions.mk false)
      (ExtensionManifest.mk "e" 1 (LibManifestEntry.mk none (some "1.0.0")) [] [] [] [] none) =
      (Except.ok (),
        ExtensionManifest.mk "e" 1 (LibManifestEntry.mk none (some "1.0.0")) [] [] [] [] none,
        [Op.createDir ["", "cache"]]) ∧
    (LibManifestEntry.mk none (some "1.0.0")).kind ≠ some ExtensionLibraryKind.Rust ∧
    (LibManifestEntry.mk none (some "1.0.0")).version ≠ none := by
  refine ⟨by decide, by decide, by decide⟩

/-- Claim C1 (amended): after a successful `compile_extension`,
`lib.version` is `Some` whenever `lib.kind` indicates a native (Rust)
library; when `lib.kind` does not indicate one, `lib.version` is left
exactly as the caller supplied it (it is `None` only if it was `None` on
entry — the build never clears a stale value). -/
theorem c1_lib_version (env : ExtEnv) (o : CompileExtensionOptions) (m m' : ExtensionManifest)
    (ops : List Op)
    (h : compile_extension env o m = (Except.ok (), m', ops)) :
    (m'.lib.kind = some ExtensionLibraryKind.Rust → ∃ v, m'.lib.version = some v) ∧
    (m'.lib.kind = none → m'.lib.version = m.lib.version) := by
  rcases hp : populate_defaults env.extensionDir env.disk m with ⟨r, m1⟩
  have hver1 : m1.lib.version = m.lib.version := by
    have hv := populate_defaults_version env.extensionDir env.disk m
    rw [hp] at hv
    exact hv
  cases r with
  | error e => simp [compile_extension, hp] at h
  | ok u =>
    cases u
    by_cases hrel : isRelativePath env.extensionDir
    · simp [compile_extension, hp, hrel] at h
    · cases hcache : env.createCacheDirOk
      · simp [compile_extension, hp, hrel, hcache] at h
      · by_cases hkind : m1.lib.kind = some ExtensionLibraryKind.Rust
        · rcases hr : compile_rust_extension env.rust o env.extensionDir m1 with ⟨rr, m2, ops1⟩
          cases rr with
          | error e => simp [compile_extension, hp, hrel, hcache, hkind, hr] at h
          | ok u2 =>
            cases u2
            rcases hg : compileGrammarsLoop env.grammarEnv env.extensionDir m2.grammars
              with ⟨r2, ops2⟩
            simp [compile_extension, hp, hrel, hcache, hkind, hr, hg, Prod.mk.injEq] at h
            obtain ⟨hA, hBm, -⟩ := h
            obtain ⟨v, hv⟩ := compile_rust_extension_ok env.rust o env.extensionDir m1 m2 ops1 hr
            constructor
            · intro _
              refine ⟨v, ?_⟩
              rw [← hBm, hv]
            · intro hnone
              rw [← hBm, hv] at hnone
              simp [hkind] at hnone
        · rcases hg : compileGrammarsLoop env.grammarEnv env.extensionDir m1.grammars
            with ⟨r2, ops2⟩
          simp [compile_extension, hp, hrel, hcache, hkind, hg, Prod.mk.injEq] at h
          obtain ⟨hA, hBm, -⟩ := h
          have hknone : m1.lib.kind = none := by
            cases hk : m1.lib.kind with
            | none => rfl
            | some k => cases k; exact absurd hk hkind
          constructor
          · intro hkRust
            rw [← hBm, hknone] at hkRust
            simp at hkRust
          · intro _
            rw [← hBm]
            exact hver1

/-- Witness for C1 (amended) at a concrete successful build without a
native library. -/
theorem c1_lib_version_witness :
    ((ExtensionManifest.mk "w" 1 (LibManifestEntry.mk none none) [] [] [] [] none).lib.kind =
        some ExtensionLibraryKind.Rust →
      ∃ v, (ExtensionManifest.mk "w" 1 (LibManifestEntry.mk none none) [] [] [] [] none).lib.version = some v) ∧
    ((ExtensionManifest.mk "w" 1 (LibManifestEntry.mk none none) [] [] [] [] none).lib.kind = none →
      (ExtensionManifest.mk "w" 1 (LibManifestEntry.mk none none) [] [] [] [] none).lib.version =
        (ExtensionManifest.mk "w" 1 (LibManifestEntry.mk none none) [] [] [] [] none).lib.version) :=
  c1_lib_version
    (ExtEnv.mk ["", "wext"]
      (DiskState.mk false none none none false none)
      ["", "wcache"] true
      (RustExtEnv.mk none none none none none true)
      (fun _ => GrammarEnv.mk (Except.error "unused") none
        (RepoEnv.mk true true none none none none) false none))
    (CompileExtensionOptions.mk true)
    (ExtensionManifest.mk "w" 1 (LibManifestEntry.mk none none) [] [] [] [] none)
    (ExtensionManifest.mk "w" 1 (LibManifestEntry.mk none none) [] [] [] [] none)
    [Op.createDir ["", "wcache"]]
    (by decide)

/-- Claim C2, counterexample to the claim as stated: with a relative
extension directory and a legacy manifest, `compile_extension` does fail
with the precondition error and performs no filesystem mutation, but the
caller's manifest is already mutated — `populate_defaults` runs before
the absolute-path check and has cleared the legacy collections. -/
theorem c2_counterexample :
    compile_extension
      (ExtEnv.mk ["ext"]
        (DiskState.mk false none none none false none)
        ["", "cache"] true
        (RustExtEnv.mk none none none none none true)
        (fun _ => GrammarEnv.mk (Except.error "unused") none
          (RepoEnv.mk true true none none none none) false none))
      (CompileExtensionOptions.mk false)
      (ExtensionManifest.mk "e" 0 (LibManifestEntry.mk none none)
        [["languages", "old"]] [] [] [] none) =
      (Except.error "extension dir ext is not an absolute path",
        ExtensionManifest.mk "e" 0 (LibManifestEntry.mk none none) [] [] [] [] none, []) ∧
    ExtensionManifest.mk "e" 0 (LibManifestEntry.mk none none) [] [] [] [] none ≠
      ExtensionManifest.mk "e" 0 (LibManifestEntry.mk none none)
        [["languages", "old"]] [] [] [] none := by
  refine ⟨by decide, by decide⟩

/-- Claim C2 (amended): when normalization succeeds and the extension
directory is relative, `compile_extension` fails with the precondition
error naming the directory, having performed no filesystem mutation and
no subprocess invocation (the operation list is empty) — but only after
`populate_defaults` has already run, so the caller's manifest carries the
normalization mutations. -/
theorem c2_relative_path (env : ExtEnv) (o : CompileExtensionOptions) (m m1 : ExtensionManifest)
    (hrel : isRelativePath env.extensionDir = true)
    (hp : populate_defaults env.extensionDir env.disk m = (Except.ok (), m1)) :
    compile_extension env o m =
      (Except.error ("extension dir " ++ pathToString env.extensionDir ++ " is not an absolute path"),
        m1, []) := by
  simp [compile_extension, hp, hrel]

/-- Witness for C2 (amended) at a concrete relative directory. -/
theorem c2_relative_path_witness :
    compile_extension
      (ExtEnv.mk ["rel", "dir"]
        (DiskState.mk false none none none false none)
        ["", "cache"] true
        (RustExtEnv.mk none none none none none true)
        (fun _ => GrammarEnv.mk (Except.error "unused") none
          (RepoEnv.mk true true none none none none) false none))
      (CompileExtensionOptions.mk false)
      (ExtensionManifest.mk "e" 1 (LibManifestEntry.mk none none) [] [] [] [] none) =
      (Except.error ("extension dir " ++ pathToString ["rel", "dir"] ++ " is not an absolute path"),
        ExtensionManifest.mk "e" 1 (LibManifestEntry.mk none none) [] [] [] [] none, []) :=
  c2_relative_path
    (ExtEnv.mk ["rel", "dir"]
      (DiskState.mk false none none none false none)
      ["", "cache"] true
      (RustExtEnv.mk none none none none none true)
      (fun _ => GrammarEnv.mk (Except.error "unused") none
        (RepoEnv.mk true true none none none none) false none))
    (CompileExtensionOptions.mk false)
    (ExtensionManifest.mk "e" 1 (LibManifestEntry.mk none none) [] [] [] [] none)
    (ExtensionManifest.mk "e" 1 (LibManifestEntry.mk none none) [] [] [] [] none)
    rfl (by decide)
